import Mathlib

/-!
Shallow embedding of src/simpleMemoryLibrary/simpleMemoryLibrary.c, a debugging
allocator that wraps malloc/realloc/calloc/free with guard bands, a linked list
of live allocation records, an allocation counter, and diagnostic entry points.

Modelling conventions:
* Machine words are `Nat`; guard words are compared as 64-bit values assembled
  from bytes in little-endian order (the layout on the library's target).
* A `Record` models one `struct memoryHeader` together with the bytes that
  follow its payload (the alignment padding and the `struct memoryCap`), as a
  function `tailMem` from byte offset (measured from the payload start, like
  the variable `s` in the C code) to byte value.
* The process heap is a list of live records, newest first; the intrusive
  doubly linked list (`le_prev != NULL`) is the `linked` flag, so the registry
  traversal order of `LIST_INSERT_HEAD` is the heap order restricted to linked
  records.
* The underlying allocator (`gp_orgRealloc`) is an environment parameter: each
  allocating operation takes an `Option Nat` giving the payload address of the
  block the underlying allocator produced, `none` meaning it failed.
* `abort()` (from the ASSERT macro) is modelled by returning `none` from an
  `Option`-valued operation; diagnostics that only abort return `Bool`.
* The build is the default one from the file header: TRACE off (so `trace`
  returns the static string "traceDisabled") and SML_PRINTF off.
-/

namespace SML

/-- MEM_HEADER_GUARD_LEN in the C source. -/
def MEM_HEADER_GUARD_LEN : Nat := 2

/-- MEM_CAP_GUARD_LEN in the C source. -/
def MEM_CAP_GUARD_LEN : Nat := 2

/-- GUARD_BAND_TOP in the C source. -/
def GUARD_BAND_TOP : Nat := 0xDEADBEEFCAFEF00D

/-- GUARD_BAND_BOTTOM in the C source. -/
def GUARD_BAND_BOTTOM : Nat := 0x0CACAFECEBADC0DE

/-- Size of an unsigned long long on the library's target (bytes). -/
def ullBytes : Nat := 8

/-- Size of `struct memoryHeader` on the target: `char *szAllocator` (8) +
`size_t size` (8) + `pthread_t threadId` (8) + two list pointers (16) +
two guard words (16). -/
def memoryHeaderBytes : Nat := 56

/-- Size of `struct memoryCap`: two guard words. -/
def memoryCapBytes : Nat := MEM_CAP_GUARD_LEN * ullBytes

/-- Per-record overhead added to the payload in `mem_get_real_usage`. -/
def overheadBytes : Nat := memoryHeaderBytes + memoryCapBytes

/-- Number of padding bytes between the end of a payload that starts at
address `addr` and has `size` bytes, and the start of the tail cap: the loop
`for (s = size; ((ucPtr + s)) % 8; s++)` runs this many times. -/
def padLen (addr size : Nat) : Nat :=
  (ullBytes - (addr + size) % ullBytes) % ullBytes

/-- Offset (from the payload start) of the tail cap. -/
def capStart (addr size : Nat) : Nat := size + padLen addr size

/-- Byte `j` of the little-endian representation of word `w`. -/
def wordByteLE (w j : Nat) : Nat := w / 256 ^ j % 256

/-- Assemble a little-endian byte list into a word. -/
def bytesToWord : List Nat → Nat
  | [] => 0
  | b :: bs => b + 256 * bytesToWord bs

/-- One live allocation: the fields of `struct memoryHeader` plus the bytes
past the payload.  `addr` is the payload address handed to the caller
(`mHead + 1` in the C code); `linked` is `le_prev != NULL`. -/
structure Record where
  addr : Nat
  szAllocator : Option String
  size : Nat
  linked : Bool
  headGuard0 : Nat
  headGuard1 : Nat
  tailMem : Nat → Nat

/-- Guard word `i` of the tail cap of `r`, assembled from the bytes stored
after the padding, little-endian. -/
def capWord (r : Record) (i : Nat) : Nat :=
  bytesToWord ((List.range ullBytes).map fun j =>
    r.tailMem (capStart r.addr r.size + ullBytes * i + j))

/-- The checks of `verifyIntegrity` in the C source: both head guard words
equal GUARD_BAND_TOP, every padding byte equals the low byte of its own
address, and both cap guard words equal GUARD_BAND_BOTTOM.  `true` means the
checks pass; `false` means the C function hits an ASSERT and aborts. -/
def verifyIntegrity (r : Record) : Bool :=
  (r.headGuard0 == GUARD_BAND_TOP) &&
  (r.headGuard1 == GUARD_BAND_TOP) &&
  ((List.range (padLen r.addr r.size)).all fun k =>
    r.tailMem (r.size + k) == (r.addr + r.size + k) % 256) &&
  (capWord r 0 == GUARD_BAND_BOTTOM) &&
  (capWord r 1 == GUARD_BAND_BOTTOM)

/-- Contents of the region past the payload as `internalRealloc` writes it:
self-describing fill bytes up to the cap, then the cap guard words.  (Offsets
below `size` are the caller's payload; `verifyIntegrity` never reads them.) -/
def freshTail (addr size : Nat) (s : Nat) : Nat :=
  if s < capStart addr size then (addr + s) % 256
  else wordByteLE GUARD_BAND_BOTTOM ((s - capStart addr size) % ullBytes)

/-- The record `internalRealloc` constructs for a block whose payload starts
at `addr`, with guard bands and padding freshly written. -/
def mkRecord (addr size : Nat) (szAllocator : Option String) : Record :=
  { addr := addr
    szAllocator := szAllocator
    size := size
    linked := true
    headGuard0 := GUARD_BAND_TOP
    headGuard1 := GUARD_BAND_TOP
    tailMem := freshTail addr size }

/-- Overwrite one byte in the region past the payload of `r`. -/
def writeByte (r : Record) (off v : Nat) : Record :=
  { r with tailMem := fun s => if s == off then v else r.tailMem s }

/-- Find the record whose payload address is `a` (first match, as the C code
locates the header by pointer arithmetic on the unique live block at `a`). -/
def lookupRec : List Record → Nat → Option Record
  | [], _ => none
  | r :: rs, a => if r.addr == a then some r else lookupRec rs a

/-- Apply `f` to the record at address `a`. -/
def updateRec : List Record → Nat → (Record → Record) → List Record
  | [], _, _ => []
  | r :: rs, a, f => if r.addr == a then f r :: rs else r :: updateRec rs a f

/-- Remove the record at address `a` (the block's storage is gone). -/
def eraseRec : List Record → Nat → List Record
  | [], _ => []
  | r :: rs, a => if r.addr == a then rs else r :: eraseRec rs a

/-- Mark the record at address `a` as removed from the intrusive list
(`LIST_REMOVE` followed by `le_prev = NULL`), keeping its storage. -/
def unlinkRec (heap : List Record) (a : Nat) : List Record :=
  updateRec heap a fun r => { r with linked := false }

/-- Global state: all live blocks (linked or detached), `gi_allocCount`, and
the per-thread `gi_hookDisabled` re-entrancy flag of the calling thread. -/
structure SMLState where
  heap : List Record
  allocCount : Int
  hookDisabled : Bool

/-- State after `init()` built the empty list (`LIST_INIT`). -/
def initState : SMLState := { heap := [], allocCount := 0, hookDisabled := false }

/-- The blocks currently on the intrusive list, in traversal order from
`lh_first` (newest first, by `LIST_INSERT_HEAD`). -/
def registry (st : SMLState) : List Record :=
  st.heap.filter fun r => r.linked

/-- The string returned by `trace` when stack tracing is compiled out. -/
def traceDisabledStr : String := "traceDisabled"

/-- The `type` argument of `internalRealloc` (REALLOC / MALLOC / CALLOC). -/
inductive AllocType where
  | reallocT : AllocType
  | mallocT : AllocType
  | callocT : AllocType

/-- Tail of `internalRealloc` after `gp_orgRealloc` succeeded with a block
whose payload address is `b`: capture attribution and bump the counter unless
the re-entrancy hook is disabled, then build the fresh record and insert it at
the head of the list.  `vPtrWasNull` records whether the incoming pointer was
NULL (it decides the REALLOC counter bump). -/
def finishAlloc (st : SMLState) (vPtrWasNull : Bool) (size nmemb : Nat)
    (type : AllocType) (b : Nat) : SMLState :=
  let szCaller : Option String :=
    if st.hookDisabled then none else some traceDisabledStr
  let bump : Int :=
    if st.hookDisabled then 0
    else
      match type with
      | AllocType.reallocT => if vPtrWasNull then 1 else 0
      | AllocType.mallocT => 1
      | AllocType.callocT => 1
  { st with
      heap := mkRecord b (size * nmemb) szCaller :: st.heap
      allocCount := st.allocCount + bump }

/-- The `internalRealloc` routine.  `vPtr` is the incoming payload pointer
(`none` for NULL); `newAddr` is the payload address of the block produced by
the underlying allocator, `none` when it fails.  The result is `none` when an
ASSERT aborts the process (corrupt guards, or a pointer that is not a live
block — C behaviour there is undefined, the guard check almost surely fires),
otherwise the returned payload pointer and the new state. -/
def internalRealloc (st : SMLState) (vPtr : Option Nat) (size nmemb : Nat)
    (type : AllocType) (newAddr : Option Nat) : Option (Option Nat × SMLState) :=
  match vPtr with
  | none =>
    match newAddr with
    | none => some (none, st)
    | some b => some (some b, finishAlloc st true size nmemb type b)
  | some a =>
    match lookupRec st.heap a with
    | none => none
    | some r =>
      if verifyIntegrity r then
        let st1 : SMLState := { st with heap := unlinkRec st.heap a }
        match newAddr with
        | none => some (none, st1)
        | some b =>
          some (some b,
            finishAlloc { st1 with heap := eraseRec st1.heap a }
              false size nmemb type b)
      else none

/-- The exported `malloc` after `init()` resolved the underlying allocator. -/
def mallocOp (st : SMLState) (size : Nat) (newAddr : Option Nat) :
    Option (Option Nat × SMLState) :=
  internalRealloc st none size 1 AllocType.mallocT newAddr

/-- The exported `realloc` (asserts that `init()` already ran). -/
def reallocOp (st : SMLState) (vPtr : Option Nat) (size : Nat)
    (newAddr : Option Nat) : Option (Option Nat × SMLState) :=
  internalRealloc st vPtr size 1 AllocType.reallocT newAddr

/-- The exported `calloc` after `init()`; zeroing the payload is invisible to
the model (payload bytes are caller-owned and never read by the checks). -/
def callocOp (st : SMLState) (nmemb size : Nat) (newAddr : Option Nat) :
    Option (Option Nat × SMLState) :=
  internalRealloc st none nmemb size AllocType.callocT newAddr

/-- The `internalFree` routine on payload address `a`: verify guards (abort on
corruption), remove the record from the list if linked, return the storage,
and decrement the counter unless the hook is disabled. -/
def internalFree (st : SMLState) (a : Nat) : Option SMLState :=
  match lookupRec st.heap a with
  | none => none
  | some r =>
    if verifyIntegrity r then
      let st1 : SMLState := { st with heap := eraseRec st.heap a }
      if st1.hookDisabled then some st1
      else some { st1 with allocCount := st1.allocCount - 1 }
    else none

/-- The exported `free`: NULL is a legal no-op. -/
def freeOp (st : SMLState) (vPtr : Option Nat) : Option SMLState :=
  match vPtr with
  | none => some st
  | some a => internalFree st a

/-- mem_get_alloc_count. -/
def mem_get_alloc_count (st : SMLState) : Int := st.allocCount

/-- mem_get_usage: walk the list verifying every record (abort on the first
corrupt one), summing payload sizes of records with a non-NULL attribution. -/
def mem_get_usage (st : SMLState) : Option Nat :=
  if (registry st).all verifyIntegrity then
    some (((registry st).filter fun r => r.szAllocator.isSome).map Record.size).sum
  else none

/-- mem_get_real_usage: like mem_get_usage but summing payload plus header and
cap overhead over every record on the list. -/
def mem_get_real_usage (st : SMLState) : Option Nat :=
  if (registry st).all verifyIntegrity then
    some ((registry st).map fun r =>
      r.size + memoryHeaderBytes + memoryCapBytes).sum
  else none

/-- mem_check_integrity: `true` when the sweep completes, `false` when some
record's guards are corrupt and the process aborts. -/
def mem_check_integrity (st : SMLState) : Bool :=
  (registry st).all verifyIntegrity

/-- mem_ignore_current_allocations: detach every record from the list
(`le_prev = NULL`) and reset the counter to zero; storage is untouched. -/
def mem_ignore_current_allocations (st : SMLState) : SMLState :=
  { st with
      heap := st.heap.map fun r => { r with linked := false }
      allocCount := 0 }

/-- One line of the mem_show_allocations report: payload address, size, and
the attribution string. -/
def showLine (r : Record) : Nat × Nat × String :=
  (r.addr, r.size, r.szAllocator.getD "")

/-- mem_show_allocations: verify every record on the list (abort on
corruption), print one line per record whose attribution is non-NULL and whose
size is non-zero, and print the "No memory allocations currently" message
exactly when no line was printed.  The result is the list of lines and whether
the no-allocations message was written. -/
def mem_show_allocations (st : SMLState) :
    Option (List (Nat × Nat × String) × Bool) :=
  if (registry st).all verifyIntegrity then
    let entries := ((registry st).filter fun r =>
      r.szAllocator.isSome && r.size != 0).map showLine
    some (entries, entries.isEmpty)
  else none

/-- Overwrite one byte at offset `off` past the payload of the block at
address `a` (the caller-side buffer overrun the guards are there to catch). -/
def writeByteOp (st : SMLState) (a off v : Nat) : SMLState :=
  { st with heap := updateRec st.heap a fun r => writeByte r off v }

/-- Allocate a list of blocks in order through `mallocOp`, each pair giving
the payload address supplied by the underlying allocator and the size. -/
def allocMany : SMLState → List (Nat × Nat) → SMLState
  | st, [] => st
  | st, (a, s) :: rest =>
    match mallocOp st s (some a) with
    | some (some _, st1) => allocMany st1 rest
    | _ => st

end SML

namespace SML

theorem freshTail_pad {a S s : Nat} (h : s < capStart a S) :
    freshTail a S s = (a + s) % 256 := by
  unfold freshTail
  rw [if_pos h]

theorem freshTail_cap {a S s : Nat} (h : capStart a S ≤ s) :
    freshTail a S s = wordByteLE GUARD_BAND_BOTTOM ((s - capStart a S) % ullBytes) := by
  unfold freshTail
  rw [if_neg (Nat.not_lt.mpr h)]

theorem capWord_mkRecord (a S : Nat) (attr : Option String) (i : Nat) :
    capWord (mkRecord a S attr) i =
      bytesToWord ((List.range ullBytes).map fun j =>
        wordByteLE GUARD_BAND_BOTTOM ((ullBytes * i + j) % ullBytes)) := by
  unfold capWord mkRecord
  simp only
  congr 1
  apply List.map_congr_left
  intro j hj
  rw [Nat.add_assoc, freshTail_cap (Nat.le_add_right _ _), Nat.add_sub_cancel_left]

theorem capWord_mkRecord_zero (a S : Nat) (attr : Option String) :
    capWord (mkRecord a S attr) 0 = GUARD_BAND_BOTTOM := by
  rw [capWord_mkRecord]
  decide

theorem capWord_mkRecord_one (a S : Nat) (attr : Option String) :
    capWord (mkRecord a S attr) 1 = GUARD_BAND_BOTTOM := by
  rw [capWord_mkRecord]
  decide

theorem verifyIntegrity_mkRecord (a S : Nat) (attr : Option String) :
    verifyIntegrity (mkRecord a S attr) = true := by
  unfold verifyIntegrity
  rw [capWord_mkRecord_zero, capWord_mkRecord_one]
  simp only [mkRecord, beq_self_eq_true, Bool.and_true, Bool.true_and]
  rw [List.all_eq_true]
  intro k hk
  rw [List.mem_range] at hk
  have hlt : S + k < capStart a S := by
    unfold capStart
    omega
  rw [freshTail_pad hlt, Nat.add_assoc]
  exact beq_self_eq_true _

end SML

namespace SML

theorem lookupRec_mem {l : List Record} {a : Nat} {r : Record}
    (h : lookupRec l a = some r) : r ∈ l := by
  induction l with
  | nil => simp [lookupRec] at h
  | cons x xs ih =>
    rw [lookupRec] at h
    by_cases hx : (x.addr == a) = true
    · rw [if_pos hx] at h
      cases h
      exact List.mem_cons_self _ _
    · rw [if_neg hx] at h
      exact List.mem_cons_of_mem x (ih h)

theorem lookupRec_update {l : List Record} {a : Nat} {f : Record → Record}
    (hf : ∀ r, (f r).addr = r.addr) :
    lookupRec (updateRec l a f) a = (lookupRec l a).map f := by
  induction l with
  | nil => rfl
  | cons x xs ih =>
    by_cases hx : (x.addr == a) = true
    · simp [updateRec, lookupRec, hx, hf x]
    · simp [updateRec, lookupRec, hx, ih]

theorem updateRec_mem {l : List Record} {a : Nat} {r : Record}
    {f : Record → Record} (h : lookupRec l a = some r) :
    f r ∈ updateRec l a f := by
  induction l with
  | nil => simp [lookupRec] at h
  | cons x xs ih =>
    rw [lookupRec] at h
    rw [updateRec]
    by_cases hx : (x.addr == a) = true
    · rw [if_pos hx] at h
      cases h
      rw [if_pos hx]
      exact List.mem_cons_self _ _
    · rw [if_neg hx] at h
      rw [if_neg hx]
      exact List.mem_cons_of_mem x (ih h)

theorem lookupRec_map {l : List Record} {a : Nat} {f : Record → Record}
    (hf : ∀ r, (f r).addr = r.addr) :
    lookupRec (l.map f) a = (lookupRec l a).map f := by
  induction l with
  | nil => rfl
  | cons x xs ih =>
    by_cases hx : (x.addr == a) = true
    · simp [lookupRec, hx, hf x]
    · simp [lookupRec, hx, hf x, ih]

theorem verifyIntegrity_setLinked (r : Record) (b : Bool) :
    verifyIntegrity { r with linked := b } = verifyIntegrity r := rfl

theorem writeByte_addr (r : Record) (off v : Nat) :
    (writeByte r off v).addr = r.addr := rfl

theorem bytesToWord_getD {bs : List Nat} {j : Nat}
    (hb : ∀ x ∈ bs, x < 256) (hj : j < bs.length) :
    bytesToWord bs / 256 ^ j % 256 = bs.getD j 0 := by
  induction bs generalizing j with
  | nil => simp at hj
  | cons b rest ih =>
    cases j with
    | zero =>
      rw [bytesToWord]
      simp only [pow_zero, Nat.div_one, List.getD_cons_zero]
      rw [Nat.add_mul_mod_self_left]
      exact Nat.mod_eq_of_lt (hb b (List.mem_cons_self _ _))
    | succ j =>
      rw [bytesToWord]
      have hdiv : (b + 256 * bytesToWord rest) / 256 ^ (j + 1) =
          bytesToWord rest / 256 ^ j := by
        rw [pow_succ, mul_comm (256 ^ j) 256, ← Nat.div_div_eq_div_mul]
        congr 1
        rw [Nat.add_mul_div_left _ _ (by norm_num : 0 < 256)]
        rw [Nat.div_eq_of_lt (hb b (List.mem_cons_self _ _))]
        omega
      rw [hdiv, List.getD_cons_succ]
      exact ih (fun x hx => hb x (List.mem_cons_of_mem _ hx)) (by simpa using hj)

theorem all_eq_false_of_mem {l : List Record} {p : Record → Bool} {r : Record}
    (hm : r ∈ l) (hp : p r = false) : l.all p = false := by
  rw [Bool.eq_false_iff]
  intro hall
  rw [List.all_eq_true] at hall
  have h2 := hall r hm
  rw [hp] at h2
  exact Bool.false_ne_true h2

theorem sum_map_add_const (l : List Record) (f : Record → Nat) (c : Nat) :
    (l.map fun r => f r + c).sum = (l.map f).sum + l.length * c := by
  induction l with
  | nil => simp
  | cons x xs ih =>
    rw [List.map_cons, List.map_cons, List.sum_cons, List.sum_cons, ih,
      List.length_cons]
    ring

end SML

namespace SML

theorem freshTail_lt (a S s : Nat) : freshTail a S s < 256 := by
  unfold freshTail
  split
  · exact Nat.mod_lt _ (by norm_num)
  · exact Nat.mod_lt _ (by norm_num)

theorem capWord_byte (r : Record) (i j : Nat) (hj : j < ullBytes)
    (hb : ∀ s, r.tailMem s < 256) :
    capWord r i / 256 ^ j % 256 =
      r.tailMem (capStart r.addr r.size + ullBytes * i + j) := by
  unfold capWord
  have hlen : ((List.range ullBytes).map fun j2 =>
      r.tailMem (capStart r.addr r.size + ullBytes * i + j2)).length = ullBytes := by
    simp
  rw [bytesToWord_getD ?memb (by rw [hlen]; exact hj)]
  · rw [List.getD_eq_getElem _ _ (by rw [hlen]; exact hj)]
    simp
  · intro x hx
    rw [List.mem_map] at hx
    obtain ⟨j2, _, rfl⟩ := hx
    exact hb _

end SML

namespace SML

set_option maxHeartbeats 1000000 in
theorem verifyIntegrity_writeByte_fresh (a S : Nat) (attr : Option String)
    (off v : Nat) (h1 : S ≤ off) (h2 : off < capStart a S + memoryCapBytes)
    (h3 : v < 256) (h4 : v ≠ freshTail a S off) :
    verifyIntegrity (writeByte (mkRecord a S attr) off v) = false := by
  cases hcase : verifyIntegrity (writeByte (mkRecord a S attr) off v) with
  | false => rfl
  | true =>
    exfalso
    rw [verifyIntegrity, Bool.and_eq_true, Bool.and_eq_true, Bool.and_eq_true,
      Bool.and_eq_true] at hcase
    obtain ⟨⟨⟨⟨-, -⟩, hpad⟩, hcap0⟩, hcap1⟩ := hcase
    have hb : ∀ s : Nat,
        (writeByte (mkRecord a S attr) off v).tailMem s < 256 := by
      intro s
      show (if s == off then v else freshTail a S s) < 256
      by_cases hs : (s == off) = true
      · rw [if_pos hs]
        exact h3
      · rw [if_neg hs]
        exact freshTail_lt a S s
    by_cases hploc : off < capStart a S
    · clear hcap0 hcap1 hb
      dsimp only [writeByte, mkRecord] at hpad
      have hklt : off - S < padLen a S := by
        unfold capStart at hploc
        omega
      rw [List.all_eq_true] at hpad
      have hk := hpad (off - S) (List.mem_range.mpr hklt)
      have he : S + (off - S) = off := by omega
      rw [he] at hk
      rw [beq_self_eq_true, if_pos rfl, beq_iff_eq] at hk
      apply h4
      rw [freshTail_pad hploc, hk]
      congr 1
      omega
    · clear hpad
      have hcs : capStart a S ≤ off := Nat.le_of_not_lt hploc
      by_cases hw0 : off < capStart a S + 8
      · clear hcap1
        have hj : off - capStart a S < ullBytes := by
          unfold ullBytes
          omega
        have hbyte := capWord_byte (writeByte (mkRecord a S attr) off v)
          0 (off - capStart a S) hj hb
        clear hb
        rw [beq_iff_eq] at hcap0
        rw [hcap0] at hbyte
        clear hcap0
        dsimp only [writeByte, mkRecord] at hbyte
        have hoffeq : capStart a S + ullBytes * 0 + (off - capStart a S) = off := by
          unfold ullBytes
          omega
        rw [hoffeq, beq_self_eq_true, if_pos rfl] at hbyte
        apply h4
        rw [freshTail_cap hcs]
        have hmod : (off - capStart a S) % ullBytes = off - capStart a S := by
          unfold ullBytes at hj ⊢
          omega
        rw [hmod]
        unfold wordByteLE
        exact hbyte.symm
      · clear hcap0
        have hj : off - capStart a S - 8 < ullBytes := by
          unfold memoryCapBytes MEM_CAP_GUARD_LEN ullBytes at h2
          unfold ullBytes
          omega
        have hbyte := capWord_byte (writeByte (mkRecord a S attr) off v)
          1 (off - capStart a S - 8) hj hb
        clear hb
        rw [beq_iff_eq] at hcap1
        rw [hcap1] at hbyte
        clear hcap1
        dsimp only [writeByte, mkRecord] at hbyte
        have hoffeq : capStart a S + ullBytes * 1 + (off - capStart a S - 8) = off := by
          unfold ullBytes
          omega
        rw [hoffeq, beq_self_eq_true, if_pos rfl] at hbyte
        apply h4
        rw [freshTail_cap hcs]
        have hmod : (off - capStart a S) % ullBytes = off - capStart a S - 8 := by
          unfold ullBytes at hj ⊢
          omega
        rw [hmod]
        unfold wordByteLE
        exact hbyte.symm

end SML

namespace SML

theorem mkRecord_addr (a S : Nat) (attr : Option String) :
    (mkRecord a S attr).addr = a := rfl

theorem mkRecord_size (a S : Nat) (attr : Option String) :
    (mkRecord a S attr).size = S := rfl

theorem mkRecord_szAllocator (a S : Nat) (attr : Option String) :
    (mkRecord a S attr).szAllocator = attr := rfl

theorem mkRecord_linked (a S : Nat) (attr : Option String) :
    (mkRecord a S attr).linked = true := rfl

theorem mallocOp_spec (st : SMLState) (S a : Nat) (h : st.hookDisabled = false) :
    mallocOp st S (some a) = some (some a,
      SMLState.mk (mkRecord a S (some traceDisabledStr) :: st.heap)
        (st.allocCount + 1) false) := by
  unfold mallocOp internalRealloc finishAlloc
  rw [h]
  simp [mul_one]

theorem mallocOp_spec_hooked (st : SMLState) (S a : Nat)
    (h : st.hookDisabled = true) :
    mallocOp st S (some a) = some (some a,
      SMLState.mk (mkRecord a S none :: st.heap) st.allocCount true) := by
  unfold mallocOp internalRealloc finishAlloc
  rw [h]
  simp [mul_one]

theorem freeOp_head (a S : Nat) (attr : Option String) (h0 : List Record)
    (c : Int) :
    freeOp (SMLState.mk (mkRecord a S attr :: h0) c false) (some a) =
      some (SMLState.mk h0 (c - 1) false) := by
  unfold freeOp internalFree
  simp [lookupRec, eraseRec, mkRecord_addr, verifyIntegrity_mkRecord]

end SML

namespace SML

theorem allocMany_spec (l : List (Nat × Nat)) (st : SMLState)
    (h : st.hookDisabled = false) :
    allocMany st l = SMLState.mk
      ((l.reverse.map fun p => mkRecord p.1 p.2 (some traceDisabledStr)) ++ st.heap)
      (st.allocCount + l.length) false := by
  induction l generalizing st with
  | nil =>
    cases st with
    | mk hh hc hk =>
      simp only [SMLState.hookDisabled] at h
      subst h
      simp [allocMany]
  | cons p rest ih =>
    cases p with
    | mk a s =>
      rw [allocMany, mallocOp_spec st s a h]
      dsimp only
      rw [ih _ rfl]
      simp only [SMLState.mk.injEq]
      refine ⟨?_, ?_, trivial⟩
      · simp [List.reverse_cons, List.map_append]
      · simp only [SMLState.allocCount, List.length_cons]
        push_cast
        ring

theorem registry_mk (hh : List Record) (c : Int) (hk : Bool) :
    registry (SMLState.mk hh c hk) = hh.filter fun r => r.linked := rfl

theorem registry_ignore (st : SMLState) :
    registry (mem_ignore_current_allocations st) = [] := by
  unfold registry mem_ignore_current_allocations
  rw [List.filter_eq_nil_iff]
  intro r hr
  rw [List.mem_map] at hr
  obtain ⟨r0, _, rfl⟩ := hr
  simp

theorem registry_append_fresh (l : List (Nat × Nat)) (h0 : List Record) (c : Int)
    (hk : Bool) :
    registry (SMLState.mk
      ((l.map fun p => mkRecord p.1 p.2 (some traceDisabledStr)) ++ h0) c hk) =
      (l.map fun p => mkRecord p.1 p.2 (some traceDisabledStr)) ++
        h0.filter fun r => r.linked := by
  rw [registry_mk, List.filter_append]
  congr 1
  rw [List.filter_eq_self]
  intro r hr
  rw [List.mem_map] at hr
  obtain ⟨p, _, rfl⟩ := hr
  rfl

end SML

namespace SML

theorem internalFree_spec (st : SMLState) (a : Nat) (r : Record)
    (hlook : lookupRec st.heap a = some r) (hver : verifyIntegrity r = true)
    (hhook : st.hookDisabled = false) :
    freeOp st (some a) =
      some (SMLState.mk (eraseRec st.heap a) (st.allocCount - 1) false) := by
  unfold freeOp internalFree
  dsimp only
  rw [hlook]
  dsimp only
  rw [hver, if_pos rfl, hhook]
  simp

/-- Claim C1, amended: when the underlying allocator cannot satisfy an
Allocate request after initialization, malloc returns the null pointer to the
caller and does not abort; the tracking state is unchanged. -/
theorem claim1_alloc_failure_returns_null (st : SMLState) (S : Nat) :
    mallocOp st S none = some (none, st) := rfl

/-- Claim C1 counterexample: with the underlying allocator failing, malloc on
the freshly initialized state returns the null pointer to the caller instead
of aborting, refuting the claim that exhaustion is fatal. -/
theorem claim1_counterexample :
    mallocOp initState 5 none = some (none, initState) ∧
    mallocOp initState 5 none ≠ none :=
  ⟨rfl, fun hcontra => Option.noConfusion hcontra⟩

/-- Claim C3: after initialization, Release(Allocate(S)) completes without
triggering corruption detection, and AllocationCount before the pair equals
AllocationCount after it. -/
theorem claim3_roundtrip (st : SMLState) (S a : Nat)
    (hhook : st.hookDisabled = false) :
    ∃ st1 st2 : SMLState,
      mallocOp st S (some a) = some (some a, st1) ∧
      freeOp st1 (some a) = some st2 ∧
      mem_get_alloc_count st2 = mem_get_alloc_count st := by
  refine ⟨SMLState.mk (mkRecord a S (some traceDisabledStr) :: st.heap)
      (st.allocCount + 1) false,
    SMLState.mk st.heap (st.allocCount + 1 - 1) false,
    mallocOp_spec st S a hhook,
    freeOp_head a S (some traceDisabledStr) st.heap (st.allocCount + 1), ?_⟩
  simp [mem_get_alloc_count]

/-- Witness for claim C3 at S = 3 with the underlying block at address 8. -/
theorem claim3_witness :
    ∃ st1 st2 : SMLState,
      mallocOp initState 3 (some 8) = some (some 8, st1) ∧
      freeOp st1 (some 8) = some st2 ∧
      mem_get_alloc_count st2 = mem_get_alloc_count initState :=
  claim3_roundtrip initState 3 8 rfl

/-- Claim C9: after IgnoreCurrentAllocations, releasing a previously tracked
block still decrements the live count, so AllocationCount becomes negative. -/
theorem claim9_free_after_ignore_negative (st : SMLState) (a : Nat) (r : Record)
    (hlook : lookupRec st.heap a = some r) (hver : verifyIntegrity r = true)
    (hhook : st.hookDisabled = false) :
    ∃ st2, freeOp (mem_ignore_current_allocations st) (some a) = some st2 ∧
      mem_get_alloc_count st2 = -1 ∧ mem_get_alloc_count st2 < 0 := by
  have hlook2 : lookupRec (mem_ignore_current_allocations st).heap a =
      some { r with linked := false } := by
    unfold mem_ignore_current_allocations
    dsimp only
    rw [lookupRec_map (f := fun r0 => { r0 with linked := false })
      (fun r0 => rfl), hlook]
    rfl
  have hver2 : verifyIntegrity { r with linked := false } = true := by
    rw [verifyIntegrity_setLinked]
    exact hver
  have hhook2 : (mem_ignore_current_allocations st).hookDisabled = false := hhook
  rw [internalFree_spec _ a _ hlook2 hver2 hhook2]
  refine ⟨_, rfl, ?_, ?_⟩
  · simp [mem_get_alloc_count, mem_ignore_current_allocations]
  · simp [mem_get_alloc_count, mem_ignore_current_allocations]

/-- Witness for claim C9: one tracked 4-byte block at address 8, ignored and
then released. -/
theorem claim9_witness :
    ∃ st2, freeOp (mem_ignore_current_allocations
        (SMLState.mk [mkRecord 8 4 (some traceDisabledStr)] 1 false))
        (some 8) = some st2 ∧
      mem_get_alloc_count st2 = -1 ∧ mem_get_alloc_count st2 < 0 :=
  claim9_free_after_ignore_negative
    (SMLState.mk [mkRecord 8 4 (some traceDisabledStr)] 1 false)
    8 (mkRecord 8 4 (some traceDisabledStr)) rfl (by decide) rfl

/-- Claim C8, amended: when the underlying allocator fails during Resize of a
live pointer, the operation returns null after the record was already removed
from the registry; the leak report excludes the block, but AllocationCount
still includes it (the live count is not decremented on this path) and the
block's storage is not released. -/
theorem claim8_failed_resize_untracked (st : SMLState) (a S : Nat) (r : Record)
    (hlook : lookupRec st.heap a = some r) (hver : verifyIntegrity r = true) :
    ∃ stF, reallocOp st (some a) S none = some (none, stF) ∧
      mem_get_alloc_count stF = mem_get_alloc_count st ∧
      lookupRec stF.heap a = some { r with linked := false } ∧
      { r with linked := false } ∉ registry stF := by
  unfold reallocOp internalRealloc
  dsimp only
  rw [hlook]
  dsimp only
  rw [hver, if_pos rfl]
  refine ⟨_, rfl, rfl, ?_, ?_⟩
  · unfold unlinkRec
    dsimp only
    rw [lookupRec_update (f := fun r0 => { r0 with linked := false })
      (fun r0 => rfl), hlook]
    rfl
  · intro hmem
    have hpred := (List.mem_filter.mp hmem).2
    simp at hpred

/-- Witness for claim C8: a tracked 5-byte block at address 8 resized to 7
bytes while the underlying allocator fails. -/
theorem claim8_witness :
    ∃ stF, reallocOp (SMLState.mk [mkRecord 8 5 (some traceDisabledStr)] 1 false)
        (some 8) 7 none = some (none, stF) ∧
      mem_get_alloc_count stF =
        mem_get_alloc_count
          (SMLState.mk [mkRecord 8 5 (some traceDisabledStr)] 1 false) ∧
      lookupRec stF.heap 8 =
        some { mkRecord 8 5 (some traceDisabledStr) with linked := false } ∧
      { mkRecord 8 5 (some traceDisabledStr) with linked := false } ∉ registry stF :=
  claim8_failed_resize_untracked
    (SMLState.mk [mkRecord 8 5 (some traceDisabledStr)] 1 false)
    8 7 (mkRecord 8 5 (some traceDisabledStr)) rfl (by decide)

/-- Claim C8 counterexample: after one allocation and a failed resize, the
registry is empty but AllocationCount still reports 1, so AllocationCount does
not exclude the no-longer-tracked block as the claim states. -/
theorem claim8_counterexample :
    (reallocOp (allocMany initState [(8, 5)]) (some 8) 7 none).isSome = true ∧
    mem_get_alloc_count
      ((reallocOp (allocMany initState [(8, 5)]) (some 8) 7 none).getD
        (none, initState)).2 = 1 ∧
    (registry ((reallocOp (allocMany initState [(8, 5)]) (some 8) 7 none).getD
        (none, initState)).2).length = 0 := by
  refine ⟨?_, ?_, ?_⟩ <;> decide

end SML

namespace SML

/-- Claim C2, amended: for a live allocation of payload size S, writing one
byte at any offset immediately past the payload (into the padding region or
the tail cap) causes the next CheckIntegrity or Release on that pointer to
abort, for every value of the written byte other than the one byte value the
region is required to hold at that offset (the self-describing fill byte in
the padding, or the corresponding guard byte in the cap). -/
theorem claim2_overrun_detected (st : SMLState) (a S : Nat)
    (attr : Option String) (off v : Nat)
    (hlook : lookupRec st.heap a = some (mkRecord a S attr))
    (hoff1 : S ≤ off) (hoff2 : off < capStart a S + memoryCapBytes)
    (hv : v < 256) (hneq : v ≠ freshTail a S off) :
    freeOp (writeByteOp st a off v) (some a) = none ∧
    mem_check_integrity (writeByteOp st a off v) = false := by
  have hlook2 : lookupRec (writeByteOp st a off v).heap a =
      some (writeByte (mkRecord a S attr) off v) := by
    unfold writeByteOp
    dsimp only
    rw [lookupRec_update (f := fun r0 => writeByte r0 off v)
      (fun r0 => rfl), hlook]
    rfl
  have hfail := verifyIntegrity_writeByte_fresh a S attr off v hoff1 hoff2 hv hneq
  constructor
  · unfold freeOp internalFree
    dsimp only
    rw [hlook2]
    dsimp only
    rw [hfail]
    simp
  · have hmem : writeByte (mkRecord a S attr) off v ∈ (writeByteOp st a off v).heap := by
      unfold writeByteOp
      dsimp only
      exact updateRec_mem hlook
    have hmem2 : writeByte (mkRecord a S attr) off v ∈
        registry (writeByteOp st a off v) :=
      List.mem_filter.mpr ⟨hmem, rfl⟩
    unfold mem_check_integrity
    exact all_eq_false_of_mem hmem2 hfail

/-- Witness for claim C2: payload of size 1 at address 64; writing the value
0 at offset 2 (a padding byte whose required value is 66) makes both Release
and CheckIntegrity abort. -/
theorem claim2_witness :
    freeOp (writeByteOp
      (SMLState.mk [mkRecord 64 1 (some traceDisabledStr)] 1 false) 64 2 0)
      (some 64) = none ∧
    mem_check_integrity (writeByteOp
      (SMLState.mk [mkRecord 64 1 (some traceDisabledStr)] 1 false) 64 2 0) =
      false :=
  claim2_overrun_detected
    (SMLState.mk [mkRecord 64 1 (some traceDisabledStr)] 1 false)
    64 1 (some traceDisabledStr) 2 0 rfl (by decide) (by decide) (by decide)
    (by decide)

/-- Claim C2 counterexample: the claim as stated quantifies over every value
of the written byte, but writing the value the region already must hold (here
65, the self-describing fill byte at offset 1 past a 1-byte payload at
address 64) is a one-byte write immediately past the payload after which both
CheckIntegrity and Release complete without aborting. -/
theorem claim2_counterexample :
    mem_check_integrity (writeByteOp
      (SMLState.mk [mkRecord 64 1 (some traceDisabledStr)] 1 false) 64 1 65) =
      true ∧
    (freeOp (writeByteOp
      (SMLState.mk [mkRecord 64 1 (some traceDisabledStr)] 1 false) 64 1 65)
      (some 64)).isSome = true := by
  refine ⟨?_, ?_⟩ <;> decide

/-- Claim C6: after IgnoreCurrentAllocations, AllocationCount equals 0 and
ShowAllocations reports no entries and prints the no-allocations message,
while the previously tracked blocks remain in place unchanged (addresses,
sizes, attributions, guards and tail bytes) and a previously tracked block
can still be released without aborting. -/
theorem claim6_suppression (st : SMLState) :
    mem_get_alloc_count (mem_ignore_current_allocations st) = 0 ∧
    mem_show_allocations (mem_ignore_current_allocations st) = some ([], true) ∧
    ((mem_ignore_current_allocations st).heap.map fun r =>
      (r.addr, r.szAllocator, r.size, r.headGuard0, r.headGuard1, r.tailMem)) =
      (st.heap.map fun r =>
        (r.addr, r.szAllocator, r.size, r.headGuard0, r.headGuard1, r.tailMem)) ∧
    ∀ a r, lookupRec st.heap a = some r → verifyIntegrity r = true →
      ∃ st2, freeOp (mem_ignore_current_allocations st) (some a) = some st2 := by
  refine ⟨rfl, ?_, ?_, ?_⟩
  · unfold mem_show_allocations
    rw [registry_ignore]
    rfl
  · unfold mem_ignore_current_allocations
    dsimp only
    rw [List.map_map]
    rfl
  · intro a r hlook hver
    have hlook2 : lookupRec (mem_ignore_current_allocations st).heap a =
        some { r with linked := false } := by
      unfold mem_ignore_current_allocations
      dsimp only
      rw [lookupRec_map (f := fun r0 => { r0 with linked := false })
        (fun r0 => rfl), hlook]
      rfl
    have hver2 : verifyIntegrity { r with linked := false } = true := by
      rw [verifyIntegrity_setLinked]
      exact hver
    unfold freeOp internalFree
    dsimp only
    rw [hlook2]
    dsimp only
    rw [hver2, if_pos rfl]
    by_cases hhk : (mem_ignore_current_allocations st).hookDisabled = true
    · rw [if_pos hhk]
      exact ⟨_, rfl⟩
    · rw [if_neg hhk]
      exact ⟨_, rfl⟩

/-- Witness for claim C6 at a state holding one tracked 4-byte block at
address 8, which is then ignored and released. -/
theorem claim6_witness :
    mem_get_alloc_count (mem_ignore_current_allocations
      (SMLState.mk [mkRecord 8 4 (some traceDisabledStr)] 1 false)) = 0 ∧
    mem_show_allocations (mem_ignore_current_allocations
      (SMLState.mk [mkRecord 8 4 (some traceDisabledStr)] 1 false)) =
      some ([], true) ∧
    ∃ st2, freeOp (mem_ignore_current_allocations
      (SMLState.mk [mkRecord 8 4 (some traceDisabledStr)] 1 false))
      (some 8) = some st2 :=
  ⟨(claim6_suppression
      (SMLState.mk [mkRecord 8 4 (some traceDisabledStr)] 1 false)).1,
   (claim6_suppression
      (SMLState.mk [mkRecord 8 4 (some traceDisabledStr)] 1 false)).2.1,
   (claim6_suppression
      (SMLState.mk [mkRecord 8 4 (some traceDisabledStr)] 1 false)).2.2.2
      8 (mkRecord 8 4 (some traceDisabledStr)) rfl (by decide)⟩

/-- Claim C7, amended: ShowAllocations writes a report line exactly for the
currently tracked, non-suppressed allocations whose attribution is non-null
and whose size is non-zero; size-zero allocations produce no line, and the
no-allocations message is written exactly when no line is produced, even if
tracked records remain. -/
theorem claim7_report (st : SMLState)
    (hall : (registry st).all verifyIntegrity = true) :
    ∃ out, mem_show_allocations st = some out ∧
      (∀ r ∈ registry st, r.szAllocator.isSome = true → r.size ≠ 0 →
        showLine r ∈ out.1) ∧
      (∀ e ∈ out.1, e.2.1 ≠ 0) ∧
      (out.2 = true ↔ out.1 = []) := by
  unfold mem_show_allocations
  rw [hall, if_pos rfl]
  refine ⟨_, rfl, ?_, ?_, ?_⟩
  · intro r hr hsome hsz
    apply List.mem_map_of_mem
    apply List.mem_filter.mpr
    refine ⟨hr, ?_⟩
    rw [Bool.and_eq_true]
    constructor
    · exact hsome
    · simpa using hsz
  · intro e he
    rw [List.mem_map] at he
    obtain ⟨r, hrf, rfl⟩ := he
    have hpred := (List.mem_filter.mp hrf).2
    rw [Bool.and_eq_true] at hpred
    have hsz := hpred.2
    simp only [bne_iff_ne, ne_eq] at hsz
    simpa [showLine] using hsz
  · simp

/-- Witness for claim C7 at a state with one tracked 4-byte block. -/
theorem claim7_witness :
    ∃ out, mem_show_allocations
        (SMLState.mk [mkRecord 8 4 (some traceDisabledStr)] 1 false) =
        some out ∧
      (∀ r ∈ registry (SMLState.mk [mkRecord 8 4 (some traceDisabledStr)] 1 false),
        r.szAllocator.isSome = true → r.size ≠ 0 → showLine r ∈ out.1) ∧
      (∀ e ∈ out.1, e.2.1 ≠ 0) ∧
      (out.2 = true ↔ out.1 = []) :=
  claim7_report (SMLState.mk [mkRecord 8 4 (some traceDisabledStr)] 1 false)
    (by decide)

/-- Claim C7 counterexample: a tracked, non-suppressed allocation of size
zero produces no report line, and the no-allocations message is printed even
though one tracked allocation remains — contradicting the claim that
size-zero allocations are reported and that the message appears exactly when
none remain. -/
theorem claim7_counterexample :
    mem_show_allocations
      (SMLState.mk [mkRecord 8 0 (some traceDisabledStr)] 1 false) =
      some ([], true) ∧
    (registry (SMLState.mk [mkRecord 8 0 (some traceDisabledStr)] 1 false)).length
      = 1 := by
  refine ⟨?_, ?_⟩ <;> decide

end SML

namespace SML

theorem option_map_some {α β : Type} (f : α → β) (x : α) :
    Option.map f (some x) = some (f x) := rfl

/-- Claim C4: starting from a state that tracks nothing, after N allocations
of sizes s1..sN with no releases, Usage equals s1+...+sN, RealUsage exceeds
Usage by exactly N times the fixed per-record header-plus-cap overhead, and
AllocationCount equals N. -/
theorem claim4_usage_accounting (st : SMLState) (l : List (Nat × Nat))
    (hreg : registry st = []) (hc : st.allocCount = 0)
    (hh : st.hookDisabled = false) :
    mem_get_usage (allocMany st l) = some (l.map Prod.snd).sum ∧
    mem_get_real_usage (allocMany st l) =
      some ((l.map Prod.snd).sum + l.length * overheadBytes) ∧
    mem_get_alloc_count (allocMany st l) = (l.length : Int) := by
  rw [allocMany_spec l st hh]
  unfold registry at hreg
  have hregeq : registry (SMLState.mk
      ((l.reverse.map fun p => mkRecord p.1 p.2 (some traceDisabledStr)) ++ st.heap)
      (st.allocCount + l.length) false) =
      l.reverse.map fun p => mkRecord p.1 p.2 (some traceDisabledStr) := by
    rw [registry_append_fresh, hreg, List.append_nil]
  have hall : (l.reverse.map fun p =>
      mkRecord p.1 p.2 (some traceDisabledStr)).all verifyIntegrity = true := by
    rw [List.all_eq_true]
    intro r hr
    rw [List.mem_map] at hr
    obtain ⟨p, _, rfl⟩ := hr
    exact verifyIntegrity_mkRecord _ _ _
  have hsizes : ((l.reverse.map fun p =>
      mkRecord p.1 p.2 (some traceDisabledStr)).map Record.size).sum =
      (l.map Prod.snd).sum := by
    rw [List.map_map]
    have hcomp : (Record.size ∘ fun p : Nat × Nat =>
        mkRecord p.1 p.2 (some traceDisabledStr)) = Prod.snd := by
      funext p
      rfl
    rw [hcomp, List.map_reverse, List.sum_reverse]
  refine ⟨?_, ?_, ?_⟩
  · unfold mem_get_usage
    rw [hregeq, hall, if_pos rfl]
    have hfil : ((l.reverse.map fun p =>
        mkRecord p.1 p.2 (some traceDisabledStr)).filter fun r =>
          r.szAllocator.isSome) =
        l.reverse.map fun p => mkRecord p.1 p.2 (some traceDisabledStr) := by
      rw [List.filter_eq_self]
      intro r hr
      rw [List.mem_map] at hr
      obtain ⟨p, _, rfl⟩ := hr
      rfl
    rw [hfil, hsizes]
  · unfold mem_get_real_usage
    rw [hregeq, hall, if_pos rfl]
    have hfun : (fun r : Record => r.size + memoryHeaderBytes + memoryCapBytes) =
        fun r : Record => Record.size r + overheadBytes := by
      funext r
      unfold overheadBytes
      exact Nat.add_assoc _ _ _
    rw [hfun, sum_map_add_const, hsizes]
    simp
  · simp [mem_get_alloc_count, hc]

/-- Witness for claim C4: two allocations of sizes 3 and 5 from the
initialized empty state give Usage 8, RealUsage 8 + 2·72 = 152, and
AllocationCount 2. -/
theorem claim4_witness :
    mem_get_usage (allocMany initState [(8, 3), (64, 5)]) = some 8 ∧
    mem_get_real_usage (allocMany initState [(8, 3), (64, 5)]) = some 152 ∧
    mem_get_alloc_count (allocMany initState [(8, 3), (64, 5)]) = 2 :=
  claim4_usage_accounting initState [(8, 3), (64, 5)] rfl rfl rfl

/-- Claim C5: Resize with the null sentinel behaves identically to Allocate
(the operations are equal as state transformers, for every underlying
allocator outcome), and Resize(p, 0) on a live pointer p yields a usable
zero-length tracked block rather than releasing p, and does not change
AllocationCount. -/
theorem claim5_resize_semantics :
    (∀ (st : SMLState) (S : Nat) (nb : Option Nat),
      reallocOp st none S nb = mallocOp st S nb) ∧
    (∀ (st : SMLState) (p b : Nat) (r : Record),
      lookupRec st.heap p = some r → verifyIntegrity r = true →
      st.hookDisabled = false →
      ∃ st2, reallocOp st (some p) 0 (some b) = some (some b, st2) ∧
        mem_get_alloc_count st2 = mem_get_alloc_count st ∧
        lookupRec st2.heap b = some (mkRecord b 0 (some traceDisabledStr)) ∧
        verifyIntegrity (mkRecord b 0 (some traceDisabledStr)) = true) := by
  constructor
  · intro st S nb
    cases nb with
    | none => rfl
    | some b => rfl
  · intro st p b r hlook hver hhook
    unfold reallocOp internalRealloc
    dsimp only
    rw [hlook]
    dsimp only
    rw [hver, if_pos rfl]
    unfold finishAlloc
    dsimp only
    rw [hhook]
    refine ⟨_, rfl, ?_, ?_, verifyIntegrity_mkRecord b 0 (some traceDisabledStr)⟩
    · simp [mem_get_alloc_count]
    · simp [lookupRec, mkRecord_addr]

/-- Witness for claim C5: the two operations agree on a concrete failing
allocator outcome, and resizing the live 5-byte block at address 16 to size
zero with the new block at address 32 keeps the count at 1. -/
theorem claim5_witness :
    reallocOp (SMLState.mk [] 0 false) none 3 none =
      mallocOp (SMLState.mk [] 0 false) 3 none ∧
    ∃ st2, reallocOp (SMLState.mk [mkRecord 16 5 (some traceDisabledStr)] 1 false)
        (some 16) 0 (some 32) = some (some 32, st2) ∧
      mem_get_alloc_count st2 =
        mem_get_alloc_count
          (SMLState.mk [mkRecord 16 5 (some traceDisabledStr)] 1 false) ∧
      lookupRec st2.heap 32 = some (mkRecord 32 0 (some traceDisabledStr)) ∧
      verifyIntegrity (mkRecord 32 0 (some traceDisabledStr)) = true :=
  ⟨claim5_resize_semantics.1 (SMLState.mk [] 0 false) 3 none,
   claim5_resize_semantics.2
     (SMLState.mk [mkRecord 16 5 (some traceDisabledStr)] 1 false)
     16 32 (mkRecord 16 5 (some traceDisabledStr)) rfl (by decide) rfl⟩

/-- Claim C10: an allocation made while the per-thread re-entrancy flag is
set is still inserted into the registry, with a null attribution and without
incrementing the live count; it is excluded from Usage, which skips
null-attribution records, yet included in RealUsage. -/
theorem claim10_reentrant_allocation (st : SMLState) (S a : Nat)
    (hh : st.hookDisabled = true)
    (hall : (registry st).all verifyIntegrity = true) :
    ∃ st1, mallocOp st S (some a) = some (some a, st1) ∧
      lookupRec st1.heap a = some (mkRecord a S none) ∧
      mkRecord a S none ∈ registry st1 ∧
      mem_get_alloc_count st1 = mem_get_alloc_count st ∧
      mem_get_usage st1 = mem_get_usage st ∧
      mem_get_real_usage st1 =
        (mem_get_real_usage st).map fun u => u + (S + overheadBytes) := by
  have hreg1 : registry (SMLState.mk (mkRecord a S none :: st.heap)
      st.allocCount true) = mkRecord a S none :: registry st := by
    rw [registry_mk]
    rw [List.filter_cons_of_pos (by rfl)]
    rfl
  refine ⟨_, mallocOp_spec_hooked st S a hh, ?_, ?_, rfl, ?_, ?_⟩
  · simp [lookupRec, mkRecord_addr]
  · rw [hreg1]
    exact List.mem_cons_self _ _
  · unfold mem_get_usage
    rw [hreg1, List.all_cons, verifyIntegrity_mkRecord, hall]
    have hfil : List.filter (fun r => r.szAllocator.isSome)
        (mkRecord a S none :: registry st) =
        List.filter (fun r => r.szAllocator.isSome) (registry st) :=
      List.filter_cons_of_neg (by simp [mkRecord_szAllocator])
    rw [hfil]
    simp
  · unfold mem_get_real_usage
    rw [hreg1, List.all_cons, verifyIntegrity_mkRecord, hall]
    rw [List.map_cons, List.sum_cons]
    simp only [Bool.and_self, if_true, option_map_some, mkRecord_size,
      Option.some.injEq]
    unfold overheadBytes memoryHeaderBytes memoryCapBytes MEM_CAP_GUARD_LEN ullBytes
    omega

/-- Witness for claim C10: a re-entrant allocation of 5 bytes at address 8
from the empty state with the hook flag set leaves the count at 0, Usage at
0, and adds 5 + 72 bytes to RealUsage. -/
theorem claim10_witness :
    ∃ st1, mallocOp (SMLState.mk [] 0 true) 5 (some 8) = some (some 8, st1) ∧
      lookupRec st1.heap 8 = some (mkRecord 8 5 none) ∧
      mkRecord 8 5 none ∈ registry st1 ∧
      mem_get_alloc_count st1 = mem_get_alloc_count (SMLState.mk [] 0 true) ∧
      mem_get_usage st1 = mem_get_usage (SMLState.mk [] 0 true) ∧
      mem_get_real_usage st1 =
        (mem_get_real_usage (SMLState.mk [] 0 true)).map fun u =>
          u + (5 + overheadBytes) :=
  claim10_reentrant_allocation (SMLState.mk [] 0 true) 5 8 rfl rfl

end SML
